/-
Verification of the provably-fair chain engine of the Envision repository
(binary dice casino).  The development shallow-embeds, from the JavaScript
sources:

  * SHA-256 and HMAC-SHA256 over byte lists (bytes are naturals < 256),
    modelling node's `crypto` module and the client's CryptoJS — both treat
    string inputs as their UTF-8 bytes; strings here are mapped to their
    character codes, which coincides with UTF-8 on the ASCII inputs the
    system uses (hex digests, numeric nonces, client seeds).
  * `generateFairRoll` (src/server.js, lines 125-131), `getCurrentSeed`
    (lines 137-140) and the bet-processing route `/api/bet` (lines 249-328),
    with the SQLite balance modelled as an explicit rational and the three
    module-level globals (`seedChain`, `previousServerSeed`, `gameIndex`)
    packaged into a `ServerState`.  JavaScript doubles are modelled as
    rationals: every roll is an exact multiple of 1/100 below 101, where
    double arithmetic is exact.
  * `generate_chain` (the chain generator script).
  * `verifyLastBet` of the client component VerificationPanel.jsx.
-/
import Mathlib

set_option maxRecDepth 100000

namespace Envision

/-! ### 32-bit primitives -/

/-- Truncation to 32 bits, the implicit width of all SHA-256 words. -/
def w32 (n : Nat) : Nat := n % 4294967296

/-- Rotation of a 32-bit word to the right by n positions. -/
def rotr32 (n x : Nat) : Nat := w32 ((x >>> n) ||| (x <<< (32 - n)))

def ch32 (x y z : Nat) : Nat := (x &&& y) ^^^ ((x ^^^ 4294967295) &&& z)

def maj32 (x y z : Nat) : Nat := (x &&& y) ^^^ (x &&& z) ^^^ (y &&& z)

def bsig0 (x : Nat) : Nat := rotr32 2 x ^^^ rotr32 13 x ^^^ rotr32 22 x

def bsig1 (x : Nat) : Nat := rotr32 6 x ^^^ rotr32 11 x ^^^ rotr32 25 x

def ssig0 (x : Nat) : Nat := rotr32 7 x ^^^ rotr32 18 x ^^^ (x >>> 3)

def ssig1 (x : Nat) : Nat := rotr32 17 x ^^^ rotr32 19 x ^^^ (x >>> 10)

/-- The 64 SHA-256 round constants. -/
def K256 : List Nat :=
  [1116352408, 1899447441, 3049323471, 3921009573, 961987163,
   1508970993, 2453635748, 2870763221, 3624381080, 310598401,
   607225278, 1426881987, 1925078388, 2162078206, 2614888103,
   3248222580, 3835390401, 4022224774, 264347078, 604807628,
   770255983, 1249150122, 1555081692, 1996064986, 2554220882,
   2821834349, 2952996808, 3210313671, 3336571891, 3584528711,
   113926993, 338241895, 666307205, 773529912, 1294757372,
   1396182291, 1695183700, 1986661051, 2177026350, 2456956037,
   2730485921, 2820302411, 3259730800, 3345764771, 3516065817,
   3600352804, 4094571909, 275423344, 430227734, 506948616,
   659060556, 883997877, 958139571, 1322822218, 1537002063,
   1747873779, 1955562222, 2024104815, 2227730452, 2361852424,
   2428436474, 2756734187, 3204031479, 3329325298]

/-- The eight 32-bit working variables of the compression function. -/
structure Hash8 where
  a : Nat
  b : Nat
  c : Nat
  d : Nat
  e : Nat
  f : Nat
  g : Nat
  h : Nat
deriving DecidableEq, Repr

/-- SHA-256 initial hash value. -/
def initH : Hash8 :=
  ⟨1779033703, 3144134277, 1013904242, 2773480762,
   1359893119, 2600822924, 528734635, 1541459225⟩

/-- Big-endian packing of bytes into 32-bit words, four bytes per word. -/
def bytesToWords : List Nat → List Nat
  | b0 :: b1 :: b2 :: b3 :: rest =>
      (((b0 * 256 + b1) * 256 + b2) * 256 + b3) :: bytesToWords rest
  | _ => []

/-- Message-schedule extension; `acc` holds the words produced so far, most
recent first, so W[t-2], W[t-7], W[t-15], W[t-16] sit at positions
1, 6, 14, 15. -/
def extendAux : Nat → List Nat → List Nat
  | 0, acc => acc.reverse
  | n + 1, acc =>
      let w := w32 (ssig1 (acc.getD 1 0) + acc.getD 6 0 +
                    ssig0 (acc.getD 14 0) + acc.getD 15 0)
      extendAux n (w :: acc)

/-- The 64-word message schedule of one 512-bit block. -/
def schedule (block : List Nat) : List Nat :=
  extendAux 48 (bytesToWords block).reverse

/-- One SHA-256 round; `kw` is the (truncated) sum of the round constant and
the schedule word. -/
def roundStep (st : Hash8) (kw : Nat) : Hash8 :=
  let t1 := w32 (st.h + bsig1 st.e + ch32 st.e st.f st.g + kw)
  let t2 := w32 (bsig0 st.a + maj32 st.a st.b st.c)
  ⟨w32 (t1 + t2), st.a, st.b, st.c, w32 (st.d + t1), st.e, st.f, st.g⟩

/-- Compression of one 64-byte block into the chaining state. -/
def compressBlock (st : Hash8) (block : List Nat) : Hash8 :=
  let ws := schedule block
  let fin := (K256.zip ws).foldl (fun s p => roundStep s (w32 (p.1 + p.2))) st
  ⟨w32 (st.a + fin.a), w32 (st.b + fin.b), w32 (st.c + fin.c),
   w32 (st.d + fin.d), w32 (st.e + fin.e), w32 (st.f + fin.f),
   w32 (st.g + fin.g), w32 (st.h + fin.h)⟩

/-- Split into 64-byte blocks.  The first argument is fuel (any bound at
least the number of blocks); structural recursion keeps the definition
kernel-reducible. -/
def chunksAux : Nat → List Nat → List (List Nat)
  | 0, _ => []
  | _, [] => []
  | fuel + 1, l => l.take 64 :: chunksAux fuel (l.drop 64)

def chunks64 (l : List Nat) : List (List Nat) := chunksAux l.length l

/-- `n` as `k` big-endian bytes. -/
def natToBytesBE : Nat → Nat → List Nat
  | 0, _ => []
  | k + 1, n => natToBytesBE k (n >>> 8) ++ [n &&& 255]

/-- SHA-256 padding: a 0x80 byte, zeros to 56 mod 64, then the bit length as
an 8-byte big-endian integer. -/
def padBytes (msg : List Nat) : List Nat :=
  let L := msg.length
  let zeros := (119 - L % 64) % 64
  msg ++ 128 :: List.replicate zeros 0 ++ natToBytesBE 8 (L * 8)

/-- The four big-endian bytes of a 32-bit word. -/
def wordBytes (w : Nat) : List Nat :=
  [(w >>> 24) &&& 255, (w >>> 16) &&& 255, (w >>> 8) &&& 255, w &&& 255]

/-- SHA-256 of a byte list, as the 32 bytes of the digest. -/
def sha256Bytes (msg : List Nat) : List Nat :=
  let fin := (chunks64 (padBytes msg)).foldl compressBlock initH
  wordBytes fin.a ++ wordBytes fin.b ++ wordBytes fin.c ++ wordBytes fin.d ++
  wordBytes fin.e ++ wordBytes fin.f ++ wordBytes fin.g ++ wordBytes fin.h

/-! ### Hex encoding and strings -/

/-- Lower-case hex digit for a value below 16 (0-9 then a-f). -/
def hexDigitChar (n : Nat) : Char :=
  if n < 10 then Char.ofNat (48 + n) else Char.ofNat (87 + n)

/-- Two hex characters of one byte. -/
def byteToHex (b : Nat) : List Char := [hexDigitChar (b / 16 % 16), hexDigitChar (b % 16)]

def hexChars (l : List Nat) : List Char := l.foldr (fun b acc => byteToHex b ++ acc) []

/-- Hex string of a byte list, as produced by node's `digest('hex')` and
CryptoJS's `enc.Hex`. -/
def bytesToHex (l : List Nat) : String := ⟨hexChars l⟩

/-- Byte view of a string: character codes, which equal the UTF-8 bytes for
the ASCII data this system feeds to its hashes. -/
def strBytes (s : String) : List Nat := s.toList.map Char.toNat

/-- Models `crypto.createHash('sha256').update(s).digest('hex')`. -/
def sha256Hex (s : String) : String := bytesToHex (sha256Bytes (strBytes s))

example : sha256Hex "abc" =
    "ba7816bf8f01cfea414140de5dae2223b00361a396177a9cb410ff61f20015ad" := by decide

example : sha256Hex "" =
    "e3b0c44298fc1c149afbf4c8996fb92427ae41e4649b934ca495991b7852b855" := by decide

/-! ### HMAC-SHA256 -/

/-- HMAC-SHA256 with a 64-byte block: keys longer than the block are hashed,
shorter ones zero-padded; inner pad 0x36, outer pad 0x5c.  Models both
`crypto.createHmac('sha256', key)` and `CryptoJS.HmacSHA256(msg, key)`. -/
def hmacSha256 (key msg : List Nat) : List Nat :=
  let k0 := if key.length > 64 then sha256Bytes key else key
  let kpad := k0 ++ List.replicate (64 - k0.length) 0
  let inner := sha256Bytes (kpad.map (fun b => b ^^^ 54) ++ msg)
  sha256Bytes (kpad.map (fun b => b ^^^ 92) ++ inner)

example : bytesToHex (hmacSha256 (strBytes "Jefe")
    (strBytes "what do ya want for nothing?")) =
    "5bdcc146bf60754e6a042426089575c75a003f089d2739839dec58b964ec3843" := by decide

/-! ### Hex parsing (client side) -/

def isHexDigitChar (c : Char) : Bool :=
  (48 ≤ c.toNat ∧ c.toNat ≤ 57) ∨ (97 ≤ c.toNat ∧ c.toNat ≤ 102) ∨
  (65 ≤ c.toNat ∧ c.toNat ≤ 70)

def hexCharVal (c : Char) : Nat :=
  if c.toNat ≤ 57 then c.toNat - 48
  else if c.toNat ≤ 70 then c.toNat - 55
  else c.toNat - 87

def parseHexDigits : List Char → Nat → Nat
  | [], acc => acc
  | c :: cs, acc =>
      if isHexDigitChar c then parseHexDigits cs (acc * 16 + hexCharVal c) else acc

/-- Models JavaScript `parseInt(s, 16)` on strings that begin with a hex
digit (every use here parses a prefix of a hex digest, so the NaN branch of
`parseInt` is unreachable): the longest hex-digit prefix is read. -/
def jsParseIntHex (s : String) : Nat := parseHexDigits s.toList 0

/-- Models JavaScript `s.substring(0, 8)`. -/
def substring8 (s : String) : String := ⟨s.toList.take 8⟩

/-! ### The server's roll function (src/server.js, generateFairRoll) -/

/-- Models `buffer.readUInt32BE(0)`: the first four bytes as a big-endian
unsigned 32-bit integer (every digest read here has 32 bytes). -/
def readUInt32BE (l : List Nat) : Nat :=
  match l with
  | b0 :: b1 :: b2 :: b3 :: _ => ((b0 * 256 + b1) * 256 + b2) * 256 + b3
  | _ => 0

/-- The integer `resultInt % 10001` of `generateFairRoll`. -/
def fairRollInt (serverSeed clientSeed : String) (nonce : Nat) : Nat :=
  readUInt32BE (hmacSha256 (strBytes serverSeed)
    (strBytes (clientSeed ++ ":" ++ toString nonce))) % 10001

/-- src/server.js lines 125-131: HMAC-SHA256 keyed by the server seed over
`"{clientSeed}:{nonce}"`, first four digest bytes as a big-endian u32,
then `% 10001 / 100`.  The double division is exact here, so the value is
the rational `resultInt % 10001 / 100`. -/
def generateFairRoll (serverSeed clientSeed : String) (nonce : Nat) : ℚ :=
  (fairRollInt serverSeed clientSeed nonce : ℚ) / 100

/-! ### The client verifier's roll recomputation (VerificationPanel.jsx) -/

/-- The integer `decimalValue % 10001` of `verifyLastBet`: `parseInt` of the
first 8 characters of the hex-encoded HMAC digest. -/
def clientRollInt (lastSeed lastClientSeed : String) (lastNonce : Nat) : Nat :=
  jsParseIntHex (substring8 (bytesToHex (hmacSha256 (strBytes lastSeed)
    (strBytes (lastClientSeed ++ ":" ++ toString lastNonce))))) % 10001

/-- VerificationPanel.jsx lines 33-40: the verifier's `calculatedRoll`. -/
def clientCalculatedRoll (lastSeed lastClientSeed : String) (lastNonce : Nat) : ℚ :=
  (clientRollInt lastSeed lastClientSeed lastNonce : ℚ) / 100

/-! ### The chain generator (generate_chain script) -/

/-- The forward hashing loop: starting from the secret, the list
`[s, sha256Hex s, sha256Hex (sha256Hex s), ...]` of length `n + 1`,
exactly the `chain` array after the generator's loop. -/
def hashChainFwd : Nat → String → List String
  | 0, s => [s]
  | n + 1, s => s :: hashChainFwd n (sha256Hex s)

/-- The generator script: draw a secret, hash it forward `size` times
collecting every value, then reverse, so index 0 is the public anchor and
index `size` the terminal secret.  The random draw of the secret is a
parameter. -/
def generate_chain (secret : String) (size : Nat) : List String :=
  (hashChainFwd size secret).reverse

/-! ### The client verifier (VerificationPanel.jsx, verifyLastBet) -/

/-- Models JavaScript `x.toFixed(2)` on the rolls at play: the integer of
hundredths after rounding (half up, as toFixed does for the nonnegative
values here); every roll is an exact multiple of 1/100 in [0, 100.01), so
the 2-decimal rendering is determined by this integer. -/
def toFixed2 (q : ℚ) : ℤ := Rat.floor (q * 100 + 1 / 2)

/-- What `verifyLastBet` renders into `verificationResult`. -/
inductive VerifyDisplay where
  /-- The empty result (shown when there is no bet yet). -/
  | empty : VerifyDisplay
  /-- The green branch: "Math Verified: {roll}" together with
  "Chain Hash: {hash}... (Valid)". -/
  | mathVerifiedChainValid (calculatedRoll : ℚ) (chainHash : String) : VerifyDisplay
  /-- The red branch: "MATH FAILED: {roll}". -/
  | mathFailed (calculatedRoll : ℚ) : VerifyDisplay
deriving DecidableEq, Repr

/-- VerificationPanel.jsx lines 27-60.  The math check recomputes the roll
from the revealed seed; the chain hash `sha256(lastSeed)` is computed but
the branch taken depends only on the math comparison — the `activeHash`
prop (the claimed anchor) is displayed above the button yet never enters
`verifyLastBet`. -/
def verifyLastBet (activeHash lastSeed : String) (lastNonce : Nat)
    (lastClientSeed : String) (actualRoll : ℚ) : VerifyDisplay :=
  if lastSeed = "No bets yet" then .empty
  else
    let calculatedRoll := clientCalculatedRoll lastSeed lastClientSeed lastNonce
    let chainHash := sha256Hex lastSeed
    if toFixed2 calculatedRoll = toFixed2 actualRoll then
      .mathVerifiedChainValid calculatedRoll chainHash
    else
      .mathFailed calculatedRoll

/-- The verifier of the spec (section 4.4), for the refinement comparison:
two independent booleans, `mathValid` comparing the recomputed roll with the
claimed roll at 2 decimals, and `chainValid` comparing `sha256(revealedSeed)`
with the claimed anchor. -/
def verify_spec (claimedAnchor revealedSeed clientSeed : String)
    (sequenceNumber : Nat) (claimedRoll : ℚ) : Bool × Bool :=
  (toFixed2 (clientCalculatedRoll revealedSeed clientSeed sequenceNumber) =
     toFixed2 claimedRoll,
   sha256Hex revealedSeed = claimedAnchor)

/-! ### The server runtime (src/server.js) -/

/-- The module-level mutable state of src/server.js: the loaded `seedChain`
array, `previousServerSeed` and `gameIndex`. -/
structure ServerState where
  seedChain : List String
  previousServerSeed : String
  gameIndex : Nat
deriving DecidableEq, Repr

/-- Startup (src/server.js lines 88-112): load the chain,
`previousServerSeed = seedChain[0]`, `gameIndex = 1`. -/
def initState (chain : List String) : ServerState :=
  ⟨chain, chain.headD "", 1⟩

/-- src/server.js lines 137-140: the seed at the cursor, or `null` when the
chain is exhausted. -/
def getCurrentSeed (st : ServerState) : Option String :=
  if st.gameIndex ≥ st.seedChain.length then none
  else some (st.seedChain.getD st.gameIndex "")

/-- The fields of the protobuf `BetRequest` that `/api/bet` destructures:
the request carries no sequence number. -/
structure BetRequest where
  betAmount : ℚ
  target : ℚ
  condition : String
  clientSeed : String
deriving DecidableEq, Repr

/-- The success payload of `/api/bet` (the `GameResponse` fields). -/
structure BetOutput where
  roll : ℚ
  isWin : Bool
  profit : ℚ
  newBalance : ℚ
  betAmount : ℚ
  serverSeedRevealed : String
  clientSeed : String
  nonce : Nat
  nextServerSeedHash : String
  error : String
deriving DecidableEq, Repr

/-- src/server.js lines 258-322, the body of `/api/bet` once the user's
balance row is read: validate the amount, read the cursor and seed, compute
the roll, settle the bet, update balance and globals.  Returns the state
and balance after the call together with the result; on the two error
responses the globals and the balance are untouched, exactly as in the
source, where `gameIndex++` and the `UPDATE` run only on the success path. -/
def processBet (st : ServerState) (balance : ℚ) (req : BetRequest) :
    ServerState × ℚ × Except String BetOutput :=
  if req.betAmount > balance ∨ req.betAmount ≤ 0 then
    (st, balance, .error "Insufficient funds")
  else
    let currentNonce := st.gameIndex
    match getCurrentSeed st with
    | none => (st, balance, .error "Casino is out of seeds!")
    | some seedUsed =>
      let rollResult := generateFairRoll seedUsed req.clientSeed currentNonce
      let winMul : Bool × ℚ :=
        if req.condition = "over" ∧ rollResult > req.target then
          (true, 99 / (100 - req.target))
        else if req.condition = "under" ∧ rollResult < req.target then
          (true, 99 / req.target)
        else (false, 0)
      let isWin := winMul.1
      let profitBal : ℚ × ℚ :=
        if isWin then
          let payout := req.betAmount * winMul.2
          (payout - req.betAmount, balance - req.betAmount + payout)
        else (-req.betAmount, balance - req.betAmount)
      let st' : ServerState := ⟨st.seedChain, seedUsed, st.gameIndex + 1⟩
      (st', profitBal.2,
       .ok ⟨rollResult, isWin, profitBal.1, profitBal.2, req.betAmount,
            seedUsed, req.clientSeed, currentNonce, "See Chain Logic", ""⟩)

/-- The payload of `GET /api/state` (src/server.js lines 227-236). -/
structure StateResponse where
  balance : ℚ
  serverSeedHash : String
  nonce : Nat
deriving DecidableEq, Repr

/-- src/server.js lines 230-234: the public state snapshot. -/
def apiState (st : ServerState) (balance : ℚ) : StateResponse :=
  ⟨balance, st.previousServerSeed, st.gameIndex⟩

/-- A sequence of `/api/bet` requests processed one after the other on the
single-threaded event loop, `some` only when every call took the success
path. -/
def runBets (st : ServerState) (balance : ℚ) :
    List BetRequest → Option (ServerState × ℚ × List BetOutput)
  | [] => some (st, balance, [])
  | req :: reqs =>
      match processBet st balance req with
      | (st', bal', Except.ok out) =>
          match runBets st' bal' reqs with
          | some (stf, balf, outs) => some (stf, balf, out :: outs)
          | none => none
      | (_, _, Except.error _) => none

/-! ### Basic lemmas about the digest functions -/

lemma sha256Bytes_length (m : List Nat) : (sha256Bytes m).length = 32 := by
  simp [sha256Bytes, wordBytes]

lemma mem_wordBytes_lt (w : Nat) : ∀ b ∈ wordBytes w, b < 256 := by
  intro b hb
  simp only [wordBytes, List.mem_cons, List.not_mem_nil, or_false] at hb
  rcases hb with h | h | h | h <;> subst h <;>
    exact Nat.lt_succ_of_le Nat.and_le_right

lemma sha256Bytes_lt (m : List Nat) : ∀ b ∈ sha256Bytes m, b < 256 := by
  intro b hb
  simp only [sha256Bytes, List.mem_append] at hb
  rcases hb with ((((((h | h) | h) | h) | h) | h) | h) | h <;>
    exact mem_wordBytes_lt _ _ h

lemma hmacSha256_length (k m : List Nat) : (hmacSha256 k m).length = 32 := by
  unfold hmacSha256
  exact sha256Bytes_length _

lemma hmacSha256_lt (k m : List Nat) : ∀ b ∈ hmacSha256 k m, b < 256 := by
  unfold hmacSha256
  exact sha256Bytes_lt _

lemma readUInt32BE_eq_getD (l : List Nat) (h : 4 ≤ l.length) :
    readUInt32BE l =
      ((l.getD 0 0 * 256 + l.getD 1 0) * 256 + l.getD 2 0) * 256 + l.getD 3 0 := by
  rcases l with _ | ⟨b0, l⟩; · simp at h
  rcases l with _ | ⟨b1, l⟩; · simp at h
  rcases l with _ | ⟨b2, l⟩; · simp at h
  rcases l with _ | ⟨b3, l⟩; · simp at h
  simp [readUInt32BE, List.getD]

/-! ### Claim theorems -/

/-- C9: for every `(serverSeed, clientSeed, sequenceNumber)` input, the roll
returned by the roll function lies in [0.00, 100.00] and is an exact
multiple of 0.01: roll × 100 is an integer in [0, 10000]. -/
theorem C9_roll_range (s c : String) (n : Nat) :
    0 ≤ generateFairRoll s c n ∧ generateFairRoll s c n ≤ 100 ∧
    ∃ k : ℕ, k ≤ 10000 ∧ generateFairRoll s c n * 100 = (k : ℚ) := by
  have hk : fairRollInt s c n < 10001 := Nat.mod_lt _ (by norm_num)
  unfold generateFairRoll
  refine ⟨by positivity, ?_, fairRollInt s c n, by omega, by field_simp⟩
  rw [div_le_iff₀ (by norm_num)]
  have : ((fairRollInt s c n : ℚ)) ≤ 10000 := by
    exact_mod_cast Nat.lt_succ_iff.mp hk
  linarith

/-- C3: the roll function computes HMAC-SHA256 keyed by the server seed over
the string "{clientSeed}:{sequenceNumber}", interprets the first 4 bytes of
the (32-byte) digest as an unsigned 32-bit big-endian integer R, and returns
(R mod 10001) / 100 — stated as roll × 100 = R mod 10001 with the big-endian
combination of the first four digest bytes written out. -/
theorem C3_roll_formula (s c : String) (n : Nat) :
    (hmacSha256 (strBytes s) (strBytes (c ++ ":" ++ toString n))).length = 32 ∧
    generateFairRoll s c n * 100 =
      (((hmacSha256 (strBytes s) (strBytes (c ++ ":" ++ toString n))).getD 0 0 * 16777216 +
        (hmacSha256 (strBytes s) (strBytes (c ++ ":" ++ toString n))).getD 1 0 * 65536 +
        (hmacSha256 (strBytes s) (strBytes (c ++ ":" ++ toString n))).getD 2 0 * 256 +
        (hmacSha256 (strBytes s) (strBytes (c ++ ":" ++ toString n))).getD 3 0) % 10001 : ℕ) := by
  refine ⟨hmacSha256_length _ _, ?_⟩
  have h100 : (100 : ℚ) ≠ 0 := by norm_num
  rw [generateFairRoll, div_mul_cancel₀ _ h100]
  have hr : fairRollInt s c n =
      ((hmacSha256 (strBytes s) (strBytes (c ++ ":" ++ toString n))).getD 0 0 * 16777216 +
        (hmacSha256 (strBytes s) (strBytes (c ++ ":" ++ toString n))).getD 1 0 * 65536 +
        (hmacSha256 (strBytes s) (strBytes (c ++ ":" ++ toString n))).getD 2 0 * 256 +
        (hmacSha256 (strBytes s) (strBytes (c ++ ":" ++ toString n))).getD 3 0) % 10001 := by
    unfold fairRollInt
    rw [readUInt32BE_eq_getD _ (by rw [hmacSha256_length]; norm_num)]
    ring_nf
  exact_mod_cast congrArg (Nat.cast : ℕ → ℚ) hr

/-- C6: every bet request with a non-positive amount or an amount above the
balance is rejected with an error before any seed is consumed: the state
(cursor and previous revealed seed) and the balance are returned unchanged
and no seed appears in the reply. -/
theorem C6_invalid_bet_rejected_first (st : ServerState) (bal : ℚ)
    (req : BetRequest) (h : req.betAmount ≤ 0 ∨ bal < req.betAmount) :
    processBet st bal req = (st, bal, Except.error "Insufficient funds") := by
  unfold processBet
  rw [if_pos]
  tauto

/-- Witness for C6 at a concrete zero-amount bet. -/
theorem C6_invalid_bet_rejected_first_witness :
    (((⟨0, 50, "over", "x"⟩ : BetRequest).betAmount ≤ 0 ∨
      (100 : ℚ) < (⟨0, 50, "over", "x"⟩ : BetRequest).betAmount) ∧
     processBet (initState ["a", "b"]) 100 ⟨0, 50, "over", "x"⟩ =
       (initState ["a", "b"], 100, Except.error "Insufficient funds")) :=
  ⟨by decide,
   C6_invalid_bet_rejected_first (initState ["a", "b"]) 100 ⟨0, 50, "over", "x"⟩
     (by decide)⟩

/-- C5: for a bet whose amount passes validation, the route replies with the
chain-exhaustion error exactly when the cursor has reached the end of the
chain, and in that case the state and the balance are returned unchanged —
no seed is consumed, the cursor neither wraps nor advances. -/
theorem C5_chain_exhaustion (st : ServerState) (bal : ℚ) (req : BetRequest)
    (h1 : 0 < req.betAmount) (h2 : req.betAmount ≤ bal) :
    ((processBet st bal req).2.2 = Except.error "Casino is out of seeds!" ↔
      st.seedChain.length ≤ st.gameIndex) ∧
    (st.seedChain.length ≤ st.gameIndex →
      processBet st bal req = (st, bal, Except.error "Casino is out of seeds!")) := by
  have hguard : ¬(req.betAmount > bal ∨ req.betAmount ≤ 0) := by
    push_neg
    exact ⟨h2, h1⟩
  unfold processBet getCurrentSeed
  rw [if_neg hguard]
  by_cases hex : st.seedChain.length ≤ st.gameIndex
  · rw [if_pos (by omega)]
    simp [hex]
  · rw [if_neg (by omega)]
    simp [hex]

/-- Witness for C5: on the chain generated with size 3 (four digests), a
valid bet at cursor 4 — the state reached after three accepted bets — is
answered with the exhaustion error and leaves state and balance unchanged. -/
theorem C5_chain_exhaustion_witness :
    ((0 : ℚ) < (⟨1, 50, "over", "x"⟩ : BetRequest).betAmount ∧
     (⟨1, 50, "over", "x"⟩ : BetRequest).betAmount ≤ (100 : ℚ)) ∧
    (((processBet ⟨generate_chain "s" 3, (generate_chain "s" 3).getD 3 "", 4⟩ 100
        ⟨1, 50, "over", "x"⟩).2.2 = Except.error "Casino is out of seeds!" ↔
      (generate_chain "s" 3).length ≤
        (⟨generate_chain "s" 3, (generate_chain "s" 3).getD 3 "", 4⟩ : ServerState).gameIndex) ∧
     ((generate_chain "s" 3).length ≤
        (⟨generate_chain "s" 3, (generate_chain "s" 3).getD 3 "", 4⟩ : ServerState).gameIndex →
      processBet ⟨generate_chain "s" 3, (generate_chain "s" 3).getD 3 "", 4⟩ 100
          ⟨1, 50, "over", "x"⟩ =
        (⟨generate_chain "s" 3, (generate_chain "s" 3).getD 3 "", 4⟩, 100,
         Except.error "Casino is out of seeds!"))) :=
  ⟨⟨by decide, by decide⟩,
   C5_chain_exhaustion ⟨generate_chain "s" 3, (generate_chain "s" 3).getD 3 "", 4⟩ 100
     ⟨1, 50, "over", "x"⟩ (by decide) (by decide)⟩

/-- C10: for every accepted bet the win flag is true exactly when the
condition is the string "over" and the roll exceeds the target, or the
condition is the string "under" and the roll is below the target; in every
other case — any other condition string, or a roll equal to the target —
the bet is still accepted, the cursor still advances (a seed is consumed),
the win flag is false and the profit is minus the bet amount. -/
theorem C10_win_condition (st : ServerState) (bal : ℚ) (req : BetRequest)
    (h1 : 0 < req.betAmount) (h2 : req.betAmount ≤ bal)
    (h3 : st.gameIndex < st.seedChain.length) :
    ∃ out : BetOutput,
      (processBet st bal req).2.2 = Except.ok out ∧
      (processBet st bal req).1 =
        ⟨st.seedChain, st.seedChain.getD st.gameIndex "", st.gameIndex + 1⟩ ∧
      (out.isWin = true ↔
        ((req.condition = "over" ∧ req.target < out.roll) ∨
         (req.condition = "under" ∧ out.roll < req.target))) ∧
      (out.isWin = false → out.profit = -req.betAmount) := by
  have hguard : ¬(req.betAmount > bal ∨ req.betAmount ≤ 0) := by
    push_neg
    exact ⟨h2, h1⟩
  unfold processBet getCurrentSeed
  rw [if_neg hguard, if_neg (by omega)]
  dsimp only
  set roll := generateFairRoll (st.seedChain.getD st.gameIndex "") req.clientSeed
    st.gameIndex with hroll
  by_cases hA : req.condition = "over" ∧ roll > req.target
  · rw [if_pos hA]
    exact ⟨_, rfl, rfl, by simp [hA.1, hA.2], by simp⟩
  · rw [if_neg hA]
    by_cases hB : req.condition = "under" ∧ roll < req.target
    · rw [if_pos hB]
      exact ⟨_, rfl, rfl, by simp [hB.1, hB.2], by simp⟩
    · rw [if_neg hB]
      exact ⟨_, rfl, rfl, by simp [hA, hB], by simp⟩

/-- Witness for C10 at a concrete accepted bet whose condition is the
string "banana": the call still succeeds with a lost bet. -/
theorem C10_win_condition_witness :
    ((0 : ℚ) < (⟨1, 50, "banana", "x"⟩ : BetRequest).betAmount ∧
     (⟨1, 50, "banana", "x"⟩ : BetRequest).betAmount ≤ (100 : ℚ) ∧
     (initState ["a", "b"]).gameIndex < (initState ["a", "b"]).seedChain.length) ∧
    (∃ out : BetOutput,
      (processBet (initState ["a", "b"]) 100 ⟨1, 50, "banana", "x"⟩).2.2 =
        Except.ok out ∧
      (processBet (initState ["a", "b"]) 100 ⟨1, 50, "banana", "x"⟩).1 =
        ⟨(initState ["a", "b"]).seedChain,
         (initState ["a", "b"]).seedChain.getD (initState ["a", "b"]).gameIndex "",
         (initState ["a", "b"]).gameIndex + 1⟩ ∧
      (out.isWin = true ↔
        (((⟨1, 50, "banana", "x"⟩ : BetRequest).condition = "over" ∧
           (⟨1, 50, "banana", "x"⟩ : BetRequest).target < out.roll) ∨
         ((⟨1, 50, "banana", "x"⟩ : BetRequest).condition = "under" ∧
           out.roll < (⟨1, 50, "banana", "x"⟩ : BetRequest).target))) ∧
      (out.isWin = false →
        out.profit = -(⟨1, 50, "banana", "x"⟩ : BetRequest).betAmount)) :=
  ⟨⟨by decide, by decide, by decide⟩,
   C10_win_condition (initState ["a", "b"]) 100 ⟨1, 50, "banana", "x"⟩
     (by decide) (by decide) (by decide)⟩

/-! ### Lemmas about the chain generator -/

lemma hashChainFwd_length (n : Nat) (s : String) : (hashChainFwd n s).length = n + 1 := by
  induction n generalizing s with
  | zero => rfl
  | succ n ih => simp [hashChainFwd, ih]

lemma hashChainFwd_getD (n i : Nat) (s : String) (h : i ≤ n) :
    (hashChainFwd n s).getD i "" = sha256Hex^[i] s := by
  induction n generalizing s i with
  | zero =>
    interval_cases i
    rfl
  | succ n ih =>
    cases i with
    | zero => rfl
    | succ i =>
      show (hashChainFwd n (sha256Hex s)).getD i "" = _
      rw [ih i (sha256Hex s) (by omega), ← Function.iterate_succ_apply]

lemma getD_reverse (l : List String) (i : Nat) (hi : i < l.length) :
    l.reverse.getD i "" = l.getD (l.length - 1 - i) "" := by
  have h1 : i < l.reverse.length := by simpa using hi
  have h2 : l.length - 1 - i < l.length := by omega
  rw [List.getD_eq_getElem?_getD, List.getElem?_eq_getElem h1, Option.getD_some,
    List.getD_eq_getElem?_getD, List.getElem?_eq_getElem h2, Option.getD_some,
    List.getElem_reverse]

lemma generate_chain_getD (s : String) (size i : Nat) (h : i ≤ size) :
    (generate_chain s size).getD i "" = sha256Hex^[size - i] s := by
  unfold generate_chain
  rw [getD_reverse _ _ (by rw [hashChainFwd_length]; omega), hashChainFwd_length,
    show size + 1 - 1 - i = size - i from by omega]
  exact hashChainFwd_getD size (size - i) s (by omega)

/-- C2: for every size ≥ 1 (and every drawn secret), the chain generator
returns an ordered sequence of exactly size+1 digests in which each entry
hashes to its predecessor: sha256(chain[i]) = chain[i-1] for i in [1, size];
index size is the drawn terminal secret. -/
theorem C2_chain_integrity (secret : String) (size : Nat) (h : 1 ≤ size) :
    (generate_chain secret size).length = size + 1 ∧
    (generate_chain secret size).getD size "" = secret ∧
    ∀ i, 1 ≤ i → i ≤ size →
      sha256Hex ((generate_chain secret size).getD i "") =
        (generate_chain secret size).getD (i - 1) "" := by
  refine ⟨by simp [generate_chain, hashChainFwd_length], ?_, ?_⟩
  · rw [generate_chain_getD _ _ _ le_rfl]
    simp
  · intro i h1 h2
    rw [generate_chain_getD _ _ _ h2, generate_chain_getD _ _ _ (by omega),
      show size - (i - 1) = (size - i) + 1 by omega, Function.iterate_succ_apply']

/-- Witness for C2 at size 3 and a concrete secret. -/
theorem C2_chain_integrity_witness :
    (1 ≤ 3) ∧
    ((generate_chain "s" 3).length = 3 + 1 ∧
     (generate_chain "s" 3).getD 3 "" = "s" ∧
     ∀ i, 1 ≤ i → i ≤ 3 →
       sha256Hex ((generate_chain "s" 3).getD i "") =
         (generate_chain "s" 3).getD (i - 1) "") :=
  ⟨by decide, C2_chain_integrity "s" 3 (by decide)⟩

/-! ### Hex round-trip: reading 8 hex characters equals reading 4 bytes -/

lemma toList_mk (l : List Char) : (⟨l⟩ : String).toList = l := rfl

lemma hexDigitChar_spec (v : Nat) (hv : v < 16) :
    isHexDigitChar (hexDigitChar v) = true ∧ hexCharVal (hexDigitChar v) = v := by
  interval_cases v <;> exact ⟨by decide, by decide⟩

lemma parseHexDigits_cons (v : Nat) (hv : v < 16) (cs : List Char) (acc : Nat) :
    parseHexDigits (hexDigitChar v :: cs) acc = parseHexDigits cs (acc * 16 + v) := by
  obtain ⟨h1, h2⟩ := hexDigitChar_spec v hv
  simp [parseHexDigits, h1, h2]

lemma jsParseIntHex_first8 (b0 b1 b2 b3 : Nat) (rest : List Nat)
    (h0 : b0 < 256) (h1 : b1 < 256) (h2 : b2 < 256) (h3 : b3 < 256) :
    jsParseIntHex (substring8 (bytesToHex (b0 :: b1 :: b2 :: b3 :: rest))) =
      ((b0 * 256 + b1) * 256 + b2) * 256 + b3 := by
  show parseHexDigits (((hexChars (b0 :: b1 :: b2 :: b3 :: rest))).take 8) 0 = _
  simp only [hexChars, List.foldr_cons, byteToHex, List.cons_append, List.nil_append,
    List.take_succ_cons, List.take_zero]
  rw [parseHexDigits_cons _ (by omega), parseHexDigits_cons _ (by omega),
    parseHexDigits_cons _ (by omega), parseHexDigits_cons _ (by omega),
    parseHexDigits_cons _ (by omega), parseHexDigits_cons _ (by omega),
    parseHexDigits_cons _ (by omega), parseHexDigits_cons _ (by omega)]
  show (((((((0 * 16 + b0 / 16 % 16) * 16 + b0 % 16) * 16 + b1 / 16 % 16) * 16 +
    b1 % 16) * 16 + b2 / 16 % 16) * 16 + b2 % 16) * 16 + b3 / 16 % 16) * 16 + b3 % 16 = _
  omega

lemma digest_roll_eq (d : List Nat) (hlen : 4 ≤ d.length) (hlt : ∀ b ∈ d, b < 256) :
    jsParseIntHex (substring8 (bytesToHex d)) = readUInt32BE d := by
  rcases d with _ | ⟨b0, d⟩; · simp at hlen
  rcases d with _ | ⟨b1, d⟩; · simp at hlen
  rcases d with _ | ⟨b2, d⟩; · simp at hlen
  rcases d with _ | ⟨b3, d⟩; · simp at hlen
  rw [jsParseIntHex_first8 _ _ _ _ _ (hlt _ (by simp)) (hlt _ (by simp))
    (hlt _ (by simp)) (hlt _ (by simp))]
  rfl

lemma roll_server_client_eq (s c : String) (n : Nat) :
    generateFairRoll s c n = clientCalculatedRoll s c n := by
  suffices h : fairRollInt s c n = clientRollInt s c n by
    rw [generateFairRoll, clientCalculatedRoll, h]
  have hd := digest_roll_eq (hmacSha256 (strBytes s) (strBytes (c ++ ":" ++ toString n)))
    (by rw [hmacSha256_length]; norm_num) (hmacSha256_lt _ _)
  rw [fairRollInt, clientRollInt, hd]

/-- C8: the server's roll computation (readUInt32BE of the first 4 raw
digest bytes) and the client verifier's recomputation (parseInt, base 16, of
the first 8 hex characters of the hex-encoded digest) are equal as
functions of (serverSeed, clientSeed, nonce). -/
theorem C8_server_client_roll_agree (s c : String) (n : Nat) :
    generateFairRoll s c n = clientCalculatedRoll s c n :=
  roll_server_client_eq s c n

/-! ### Sequencing lemmas for the bet route -/

lemma getD_of_lt (l : List String) (i : Nat) (h : i < l.length) :
    l.getD i "" = l[i] := by
  rw [List.getD_eq_getElem?_getD, List.getElem?_eq_getElem h, Option.getD_some]

lemma drop_take_succ_chain (l : List String) (i k : Nat) (h : i < l.length) :
    (l.drop i).take (k + 1) = l.getD i "" :: (l.drop (i + 1)).take k := by
  rw [List.drop_eq_getElem_cons h, List.take_succ_cons, getD_of_lt _ _ h]

lemma processBet_ok (st : ServerState) (bal : ℚ) (req : BetRequest)
    (st' : ServerState) (bal' : ℚ) (out : BetOutput)
    (h : processBet st bal req = (st', bal', Except.ok out)) :
    st'.seedChain = st.seedChain ∧ st'.gameIndex = st.gameIndex + 1 ∧
    st'.previousServerSeed = st.seedChain.getD st.gameIndex "" ∧
    out.serverSeedRevealed = st.seedChain.getD st.gameIndex "" ∧
    out.nonce = st.gameIndex ∧ st.gameIndex < st.seedChain.length := by
  unfold processBet getCurrentSeed at h
  by_cases hg : req.betAmount > bal ∨ req.betAmount ≤ 0
  · rw [if_pos hg] at h
    simp at h
  · rw [if_neg hg] at h
    by_cases he : st.gameIndex ≥ st.seedChain.length
    · rw [if_pos he] at h
      simp at h
    · rw [if_neg he] at h
      dsimp only at h
      simp only [Prod.mk.injEq, Except.ok.injEq] at h
      obtain ⟨hst, hbal, hout⟩ := h
      subst hst hout
      exact ⟨rfl, rfl, rfl, rfl, rfl, by omega⟩

lemma runBets_spec (reqs : List BetRequest) : ∀ (st : ServerState) (bal : ℚ)
    (stf : ServerState) (balf : ℚ) (outs : List BetOutput),
    runBets st bal reqs = some (stf, balf, outs) →
    stf.seedChain = st.seedChain ∧
    stf.gameIndex = st.gameIndex + reqs.length ∧
    outs.map (fun o => o.serverSeedRevealed) =
      (st.seedChain.drop st.gameIndex).take reqs.length ∧
    outs.map (fun o => o.nonce) = List.range' st.gameIndex reqs.length ∧
    stf.previousServerSeed = (if reqs.isEmpty then st.previousServerSeed
      else st.seedChain.getD (st.gameIndex + reqs.length - 1) "") ∧
    (¬reqs.isEmpty = true → st.gameIndex + reqs.length ≤ st.seedChain.length) := by
  induction reqs with
  | nil =>
    intro st bal stf balf outs h
    simp only [runBets, Option.some.injEq, Prod.mk.injEq] at h
    obtain ⟨h1, h2, h3⟩ := h
    subst h1 h3
    simp
  | cons req reqs ih =>
    intro st bal stf balf outs h
    unfold runBets at h
    rcases hp : processBet st bal req with ⟨st1, bal1, r⟩
    rw [hp] at h
    cases r with
    | error e => simp at h
    | ok out =>
      dsimp only at h
      rcases hr : runBets st1 bal1 reqs with _ | ⟨⟨st2, bal2, outs2⟩⟩
      · rw [hr] at h
        simp at h
      · rw [hr] at h
        simp only [Option.some.injEq, Prod.mk.injEq] at h
        obtain ⟨h1, h2, h3⟩ := h
        subst h1 h2 h3
        obtain ⟨hA, hB, hC, hD, hE, hF⟩ := ih st1 bal1 st2 bal2 outs2 hr
        obtain ⟨p1, p2, p3, p4, p5, p6⟩ := processBet_ok st bal req st1 bal1 out hp
        refine ⟨by rw [hA, p1], by rw [hB, p2, List.length_cons]; omega, ?_, ?_, ?_, ?_⟩
        · simp only [List.map_cons, List.length_cons]
          rw [hC, p4, p1, p2, drop_take_succ_chain _ _ _ p6]
        · simp only [List.map_cons, List.length_cons]
          rw [hD, p5, p2, List.range'_succ]
        · rcases reqs with _ | ⟨q, qs⟩
          · simp only [List.isEmpty_nil, if_true] at hE
            rw [hE, p3, if_neg (by simp)]
            simp
          · simp only [List.isEmpty_cons, Bool.false_eq_true, if_false] at hE
            rw [hE, p1, p2, if_neg (by simp)]
            congr 1
            simp only [List.length_cons]
            omega
        · intro hne
          rcases reqs with _ | ⟨q, qs⟩
          · simp only [List.length_cons, List.length_nil]
            omega
          · have hq := hF (by simp)
            rw [p1, p2] at hq
            simp only [List.length_cons] at hq ⊢
            omega

/-- C4: after k successful bet calls on a fresh chain the cursor reads
1 + k, the k revealed seeds are chain[1]..chain[k] in order (pairwise
distinct whenever the chain entries are), each reported sequence number is
the cursor value at the time of its call (1, 2, ..., k), and the request
type carries no sequence number a caller could supply. -/
theorem C4_at_most_once_consumption (chain : List String) (bal : ℚ)
    (reqs : List BetRequest)
    (h : (runBets (initState chain) bal reqs).isSome = true) :
    ((runBets (initState chain) bal reqs).getD (initState [], 0, [])).1.gameIndex =
      1 + reqs.length ∧
    ((runBets (initState chain) bal reqs).getD (initState [], 0, [])).2.2.map
        (fun o => o.serverSeedRevealed) = (chain.drop 1).take reqs.length ∧
    ((runBets (initState chain) bal reqs).getD (initState [], 0, [])).2.2.map
        (fun o => o.nonce) = List.range' 1 reqs.length ∧
    (chain.Nodup →
      (((runBets (initState chain) bal reqs).getD (initState [], 0, [])).2.2.map
        (fun o => o.serverSeedRevealed)).Nodup) := by
  rcases hr : runBets (initState chain) bal reqs with _ | ⟨⟨stf, balf, outs⟩⟩
  · rw [hr] at h
    simp at h
  · obtain ⟨hA, hB, hC, hD, hE, hF⟩ :=
      runBets_spec reqs (initState chain) bal stf balf outs hr
    simp only [Option.getD_some]
    refine ⟨by rw [hB]; rfl, hC, hD, fun hnd => ?_⟩
    rw [hC]
    exact ((List.take_sublist _ _).trans (List.drop_sublist _ _)).nodup hnd

/-- Witness for C4: one successful bet on the chain ["a", "b"]. -/
theorem C4_at_most_once_consumption_witness :
    ((runBets (initState ["a", "b"]) 100
        [⟨1, 50, "over", "x"⟩]).isSome = true) ∧
    (((runBets (initState ["a", "b"]) 100 [⟨1, 50, "over", "x"⟩]).getD
        (initState [], 0, [])).1.gameIndex = 1 + [(⟨1, 50, "over", "x"⟩ : BetRequest)].length ∧
     ((runBets (initState ["a", "b"]) 100 [⟨1, 50, "over", "x"⟩]).getD
        (initState [], 0, [])).2.2.map (fun o => o.serverSeedRevealed) =
       (["a", "b"].drop 1).take [(⟨1, 50, "over", "x"⟩ : BetRequest)].length ∧
     ((runBets (initState ["a", "b"]) 100 [⟨1, 50, "over", "x"⟩]).getD
        (initState [], 0, [])).2.2.map (fun o => o.nonce) =
       List.range' 1 [(⟨1, 50, "over", "x"⟩ : BetRequest)].length ∧
     (["a", "b"].Nodup →
       (((runBets (initState ["a", "b"]) 100 [⟨1, 50, "over", "x"⟩]).getD
          (initState [], 0, [])).2.2.map (fun o => o.serverSeedRevealed)).Nodup)) :=
  ⟨by decide, C4_at_most_once_consumption ["a", "b"] 100 [⟨1, 50, "over", "x"⟩] (by decide)⟩

lemma headD_eq_getD_zero (l : List String) : l.headD "" = l.getD 0 "" := by
  cases l <;> rfl

/-- C7: the serverSeedHash of the public state query equals chain[0] before
any bet; after k accepted bets it equals chain[k], the seed revealed by the
k-th bet; and it always equals previousRevealedSeed = chain[gameIndex - 1]. -/
theorem C7_anchor_tracks_reveals (chain : List String) (bal : ℚ)
    (reqs : List BetRequest)
    (h : (runBets (initState chain) bal reqs).isSome = true) :
    (apiState (initState chain) bal).serverSeedHash = chain.getD 0 "" ∧
    (apiState ((runBets (initState chain) bal reqs).getD (initState [], 0, [])).1
        ((runBets (initState chain) bal reqs).getD (initState [], 0, [])).2.1).serverSeedHash =
      chain.getD reqs.length "" ∧
    (apiState ((runBets (initState chain) bal reqs).getD (initState [], 0, [])).1
        ((runBets (initState chain) bal reqs).getD (initState [], 0, [])).2.1).serverSeedHash =
      (((runBets (initState chain) bal reqs).getD (initState [], 0, [])).1.seedChain).getD
        ((((runBets (initState chain) bal reqs).getD (initState [], 0, [])).1.gameIndex) - 1)
        "" := by
  rcases hr : runBets (initState chain) bal reqs with _ | ⟨⟨stf, balf, outs⟩⟩
  · rw [hr] at h
    simp at h
  · obtain ⟨hA, hB, hC, hD, hE, hF⟩ :=
      runBets_spec reqs (initState chain) bal stf balf outs hr
    have hprev : stf.previousServerSeed = chain.getD reqs.length "" := by
      rcases reqs with _ | ⟨q, qs⟩
      · simp only [List.isEmpty_nil, if_true] at hE
        rw [hE]
        exact headD_eq_getD_zero chain
      · simp only [List.isEmpty_cons, Bool.false_eq_true, if_false] at hE
        rw [hE]
        congr 1
        show 1 + (q :: qs).length - 1 = (q :: qs).length
        omega
    simp only [Option.getD_some]
    refine ⟨headD_eq_getD_zero chain, hprev, ?_⟩
    show stf.previousServerSeed = stf.seedChain.getD (stf.gameIndex - 1) ""
    rw [hprev, hA, hB]
    show chain.getD reqs.length "" = chain.getD (1 + reqs.length - 1) ""
    congr 1
    omega

/-- Witness for C7: one successful bet on the chain ["a", "b"]. -/
theorem C7_anchor_tracks_reveals_witness :
    ((runBets (initState ["a", "b"]) 100 [⟨1, 50, "over", "x"⟩]).isSome = true) ∧
    ((apiState (initState ["a", "b"]) 100).serverSeedHash = ["a", "b"].getD 0 "" ∧
     (apiState ((runBets (initState ["a", "b"]) 100 [⟨1, 50, "over", "x"⟩]).getD
          (initState [], 0, [])).1
        ((runBets (initState ["a", "b"]) 100 [⟨1, 50, "over", "x"⟩]).getD
          (initState [], 0, [])).2.1).serverSeedHash =
       ["a", "b"].getD [(⟨1, 50, "over", "x"⟩ : BetRequest)].length "" ∧
     (apiState ((runBets (initState ["a", "b"]) 100 [⟨1, 50, "over", "x"⟩]).getD
          (initState [], 0, [])).1
        ((runBets (initState ["a", "b"]) 100 [⟨1, 50, "over", "x"⟩]).getD
          (initState [], 0, [])).2.1).serverSeedHash =
       (((runBets (initState ["a", "b"]) 100 [⟨1, 50, "over", "x"⟩]).getD
          (initState [], 0, [])).1.seedChain).getD
         ((((runBets (initState ["a", "b"]) 100 [⟨1, 50, "over", "x"⟩]).getD
          (initState [], 0, [])).1.gameIndex) - 1) "") :=
  ⟨by decide, C7_anchor_tracks_reveals ["a", "b"] 100 [⟨1, 50, "over", "x"⟩] (by decide)⟩

/-- True exactly on the verifier display that announces the chain hash as
"(Valid)". -/
def reportsChainValid : VerifyDisplay → Bool
  | VerifyDisplay.mathVerifiedChainValid _ _ => true
  | _ => false

/-- C1: the claim says the verifier reports chainValid = false whenever
sha256(revealedSeed) differs from the claimed anchor, even when the math
check passes.  The client code computes the chain hash but never compares
it with the anchor: at a concrete input whose revealed seed does not hash
to the claimed anchor while the recomputed roll matches, `verifyLastBet`
still renders the green "Chain Hash ... (Valid)" branch, whereas the
spec's verifier returns (mathValid, chainValid) = (true, false). -/
theorem C1_verifier_skips_chain_check :
    sha256Hex "a" ≠
      "0000000000000000000000000000000000000000000000000000000000000000" ∧
    reportsChainValid (verifyLastBet
        "0000000000000000000000000000000000000000000000000000000000000000"
        "a" 1 "x" (generateFairRoll "a" "x" 1)) = true ∧
    (verify_spec
        "0000000000000000000000000000000000000000000000000000000000000000"
        "a" "x" 1 (generateFairRoll "a" "x" 1)).1 = true ∧
    (verify_spec
        "0000000000000000000000000000000000000000000000000000000000000000"
        "a" "x" 1 (generateFairRoll "a" "x" 1)).2 = false := by
  refine ⟨by decide, ?_, ?_, by decide⟩
  · unfold verifyLastBet
    rw [if_neg (by decide : ¬("a" = "No bets yet"))]
    dsimp only
    rw [roll_server_client_eq "a" "x" 1, if_pos rfl]
    rfl
  · unfold verify_spec
    dsimp only
    rw [roll_server_client_eq "a" "x" 1]
    simp

end Envision
